import Mathlib

/-!
Verification of the village/mandal location reconciler and cascading-filter
logic of `src/client/pages/projects/ProjectForm.tsx`.

The TypeScript code is shallowly embedded: JS strings are Lean `String`
(lists of characters), `String.prototype.trim` / `toLowerCase` / `includes`
are modelled character-wise on ASCII (`trimChars`, `jsLower`, `jsIncludes`),
a JS `Map` is an insertion-ordered association list (`jsSet`, `jsMapOfList`),
a JS `Set` built through `Array.from(new Set(...))` is a first-occurrence
dedup (`jsSetDedup`), and `Array.prototype.sort` with the `localeCompare`
comparator is modelled as a stable insertion sort under the default string
order (`sortStrings`).  React form state touched by the handlers is an
explicit record (`FormState`) and each relevant `onChange`/`onBlur` handler
is a state-transition function.
-/

namespace ChittoorLoc

/-- A village→mandal record as held in the component's `mapping` state
(`{ mandal: string; village: string }` in `ProjectForm.tsx`). -/
structure LocationRecord where
  village : String
  mandal : String
deriving DecidableEq

/-- Whitespace as trimmed by `String.prototype.trim` (ASCII subset). -/
def isWS (c : Char) : Bool :=
  c == ' ' || c == '\t' || c == '\r' || c == '\n'

/-- Trim leading and trailing whitespace from a character list. -/
def trimChars (l : List Char) : List Char :=
  ((l.dropWhile isWS).reverse.dropWhile isWS).reverse

/-- `s.trim()` on a JS string. -/
def jsTrim (s : String) : String := ⟨trimChars s.data⟩

/-- `s.toLowerCase()`, modelled as per-character lowering. -/
def jsLower (s : String) : String := ⟨s.data.map Char.toLower⟩

/-- `needle` is a prefix of the second list. -/
def isPrefixB : List Char → List Char → Bool
  | [], _ => true
  | _ :: _, [] => false
  | a :: as, b :: bs => a == b && isPrefixB as bs

/-- `needle` occurs contiguously inside the second list. -/
def isInfixB (needle : List Char) : List Char → Bool
  | [] => isPrefixB needle []
  | c :: rest => isPrefixB needle (c :: rest) || isInfixB needle rest

/-- `hay.includes(needle)` on JS strings. -/
def jsIncludes (hay needle : String) : Bool := isInfixB needle.data hay.data

/-- Strip an expected prefix, returning the remainder when it matches. -/
def dropPre : List Char → List Char → Option (List Char)
  | [], l => some l
  | _ :: _, [] => none
  | a :: as, b :: bs => if a == b then dropPre as bs else none

/-- The header test `/^Village\s*,\s*Mandal$/i.test(ln)` from `parseCSV`:
case-insensitive `Village`, optional whitespace, a comma, optional
whitespace, `Mandal`, end of line. -/
def isHeaderLine (l : List Char) : Bool :=
  match dropPre ("village".data) (l.map Char.toLower) with
  | none => false
  | some r1 =>
    match r1.dropWhile isWS with
    | ',' :: r2 =>
      match dropPre ("mandal".data) (r2.dropWhile isWS) with
      | some [] => true
      | _ => false
    | _ => false

/-- Split at the last comma: `ln.lastIndexOf(",")` followed by the two
`slice`s; `none` when the line holds no comma (`idx === -1`). -/
def splitAtLastComma : List Char → Option (List Char × List Char)
  | [] => none
  | c :: rest =>
    match splitAtLastComma rest with
    | some (a, b) => some (c :: a, b)
    | none => if c == ',' then some ([], rest) else none

/-- `csv.split(/\r?\n/)`, modelled as splitting at every newline; a carriage
return left at the end of a piece is removed by the trim that follows. -/
def splitOnNl : List Char → List (List Char)
  | [] => [[]]
  | c :: rest =>
    if c == '\n' then [] :: splitOnNl rest
    else
      match splitOnNl rest with
      | [] => [[c]]
      | h :: t => (c :: h) :: t

/-- `parseCSV` from `ProjectForm.tsx` (lines 88–101): per line, trim, skip
empties and the header row, split at the last comma, trim both parts and
push the record when both are non-empty. -/
def parseCSV (csv : String) : List LocationRecord :=
  (splitOnNl csv.data).foldl
    (fun out line =>
      let ln := trimChars line
      if ln.isEmpty then out
      else if isHeaderLine ln then out
      else
        match splitAtLastComma ln with
        | none => out
        | some (a, b) =>
          let village := trimChars a
          let mandal := trimChars b
          if !village.isEmpty && !mandal.isEmpty then out ++ [⟨⟨village⟩, ⟨mandal⟩⟩]
          else out)
    []

/-- One `map.set(k, v)` step on a JS `Map` held as an insertion-ordered
association list: an existing key keeps its position and gets the new
value; a fresh key is appended. -/
def jsSet {K V : Type} [DecidableEq K] (m : List (K × V)) (k : K) (v : V) :
    List (K × V) :=
  match m with
  | [] => [(k, v)]
  | e :: rest => if e.1 = k then (k, v) :: rest else e :: jsSet rest k v

/-- `new Map(entries)`: set every entry in order, starting from empty. -/
def jsMapOfList {K V : Type} [DecidableEq K] (l : List (K × V)) : List (K × V) :=
  l.foldl (fun m e => jsSet m e.1 e.2) []

/-- Lookup in the association-list model of a JS `Map`. -/
def assocLookup {K V : Type} [DecidableEq K] (k : K) : List (K × V) → Option V
  | [] => none
  | e :: rest => if e.1 = k then some e.2 else assocLookup k rest

/-- The key under which a record is stored: `r.village.toLowerCase()`. -/
def recKey (r : LocationRecord) : String := jsLower r.village

/-- `for (const r of l) map.set(r.village.toLowerCase(), r)` starting from `m`. -/
def insertAll (m : List (String × LocationRecord)) (l : List LocationRecord) :
    List (String × LocationRecord) :=
  l.foldl (fun m r => jsSet m (recKey r) r) m

/-- The local-only mapping (lines 105–112 and the `catch` fallback 131–136):
`Array.from(new Map(local.map((r) => [r.village.toLowerCase(), r])).values())`. -/
def localOnlyMapping (loc : List LocationRecord) : List LocationRecord :=
  (jsMapOfList (loc.map (fun r => (recKey r, r)))).map (fun e => e.2)

/-- The merged mapping (lines 127–130): local records are `set` first, the
normalized remote records second, then `Array.from(map.values())`. -/
def mergedMapping (loc supa : List LocationRecord) : List LocationRecord :=
  (insertAll (insertAll [] loc) supa).map (fun e => e.2)

/-- A raw remote row: each field may be absent/null (`undefined`), modelled
as `Option String`. -/
structure RemoteRow where
  village : Option String
  mandal : Option String
deriving DecidableEq

/-- Normalization of a remote row (lines 121–124):
`{ village: String(r.village || "").trim(), mandal: String(r.mandal || "").trim() }`. -/
def normalizeRemote (r : RemoteRow) : LocationRecord :=
  ⟨jsTrim (r.village.getD ""), jsTrim (r.mandal.getD "")⟩

/-- Outcome of the remote fetch: a resolved `{ data, error }` pair (where
`data` is `none` when it is not an array) or a thrown exception. -/
inductive FetchOutcome where
  | success (error : Bool) (data : Option (List RemoteRow))
  | thrown
deriving DecidableEq

/-- The remote-reconciling IIFE (lines 114–137): on a clean result merge
normalized remote rows over the local ones; an error result or non-array
data contributes no remote rows; a thrown exception falls back to the
deduplicated local mapping. -/
def buildRemoteMapping (loc : List LocationRecord) (o : FetchOutcome) :
    List LocationRecord :=
  match o with
  | .thrown => localOnlyMapping loc
  | .success error data =>
    let supa : List LocationRecord :=
      match error, data with
      | false, some rows => rows.map normalizeRemote
      | _, _ => []
    mergedMapping loc supa

/-- First-occurrence-order dedup: the iteration order of
`Array.from(new Set(list))`. -/
def jsSetDedup (l : List String) : List String :=
  l.foldl (fun acc x => if x ∈ acc then acc else acc ++ [x]) []

/-- Stable insert for the sort model: place `x` before the first element
not below it. -/
def insertStr (x : String) : List String → List String
  | [] => [x]
  | y :: ys => if y < x then y :: insertStr x ys else x :: y :: ys

/-- `.sort((a, b) => a.localeCompare(b))`, modelled as a stable insertion
sort under the default string order. -/
def sortStrings : List String → List String
  | [] => []
  | x :: xs => insertStr x (sortStrings xs)

/-- `_mandals` (lines 266–268): distinct truthy (non-empty) mandals of the
mapping, sorted. -/
def mandalList (mapping : List LocationRecord) : List String :=
  sortStrings (jsSetDedup ((mapping.map (fun r => r.mandal)).filter (fun s => s ≠ "")))

/-- `filteredMandals` (lines 269–271): narrow by case-insensitive substring
once the trimmed filter has at least two characters. -/
def filteredMandals (mapping : List LocationRecord) (mandalFilter : String) :
    List String :=
  if 2 ≤ (jsTrim mandalFilter).length then
    (mandalList mapping).filter
      (fun m => jsIncludes (jsLower m) (jsLower (jsTrim mandalFilter)))
  else mandalList mapping

/-- `selectedMandal` (line 273): `(form.watch("mandal") || "").trim()`. -/
def selectedMandalOf (mandalValue : String) : String := jsTrim mandalValue

/-- `villagesSource` (lines 274–276). -/
def villagesSource (mapping : List LocationRecord) (mandalValue : String) :
    List String :=
  if selectedMandalOf mandalValue ≠ "" then
    (mapping.filter (fun r => r.mandal = selectedMandalOf mandalValue)).map
      (fun r => r.village)
  else mapping.map (fun r => r.village)

/-- `_villages` (lines 277–279): distinct truthy villages of the source, sorted. -/
def villageList (mapping : List LocationRecord) (mandalValue : String) :
    List String :=
  sortStrings (jsSetDedup ((villagesSource mapping mandalValue).filter (fun s => s ≠ "")))

/-- `filteredVillages` (lines 281–286). -/
def filteredVillages (mapping : List LocationRecord)
    (mandalValue villageFilter : String) : List String :=
  let q := jsLower (jsTrim villageFilter)
  if 3 ≤ q.length then
    (villageList mapping mandalValue).filter (fun v => jsIncludes (jsLower v) q)
  else if selectedMandalOf mandalValue ≠ "" then villageList mapping mandalValue
  else []

/-- The form/component state touched by the location handlers: the two form
values and the five `useState` pieces. -/
structure FormState where
  village : String
  mandal : String
  villageFilter : String
  mandalFilter : String
  manualMode : Bool
  manualVillage : String
  manualMandal : String
deriving DecidableEq

/-- The initial state: `defaultValues` sets village/mandal to `""` and every
`useState` starts at `""`/`false`. -/
def initialFormState : FormState := ⟨"", "", "", "", false, "", ""⟩

/-- The village `<select>` `onChange` handler (lines 408–422): `__other__`
enters manual mode clearing both values and both manual fields; any other
value sets the village and auto-fills the mandal by exact village match
(empty when none). -/
def onVillageSelect (mapping : List LocationRecord) (v : String)
    (s : FormState) : FormState :=
  if v = "__other__" then
    { s with manualMode := true, village := "", mandal := "",
             manualVillage := "", manualMandal := "" }
  else
    { s with village := v,
             mandal :=
               match mapping.find? (fun r => r.village = v) with
               | some r0 => r0.mandal
               | none => "",
             manualMode := false }

/-- The mandal `<select>` `onChange` handler (lines 371–384): `__other__`
enters manual mode clearing the mandal and the manual mandal field; any
other value sets the mandal and clears the selected village and the village
filter. -/
def onMandalSelect (m : String) (s : FormState) : FormState :=
  if m = "__other__" then
    { s with manualMode := true, mandal := "", manualMandal := "" }
  else
    { s with mandal := m, village := "", villageFilter := "", manualMode := false }

/-- The manual-mode Cancel button (lines 467–472): leave manual mode and
clear the two manual text fields; the form values are untouched. -/
def onCancelManual (s : FormState) : FormState :=
  { s with manualMode := false, manualVillage := "", manualMandal := "" }

/-- Typing in the manual village input (lines 448–451). -/
def onManualVillageInput (t : String) (s : FormState) : FormState :=
  { s with manualVillage := t, village := t }

/-- Typing in the manual mandal input (lines 458–461). -/
def onManualMandalInput (t : String) (s : FormState) : FormState :=
  { s with manualMandal := t, mandal := t }

/-- The `onBlur` handler of the fallback village input (lines 485–494),
rendered only when the mapping is empty: guard `val && mapping.length`,
then auto-fill the mandal by exact village match, keeping the current
mandal when none matches. -/
def onFallbackVillageBlur (mapping : List LocationRecord) (val : String)
    (s : FormState) : FormState :=
  if val ≠ "" ∧ mapping.length ≠ 0 then
    { s with mandal :=
        match mapping.find? (fun r => r.village = val) with
        | some r0 => r0.mandal
        | none => s.mandal }
  else s

/-! ### Spec-side formulations

The following definitions restate, in the spec's own words, the behaviour
the claims attribute to the code; the theorems below compare them with the
source-derived definitions above. -/

/-- The last element of a list satisfying a predicate, if any.  Used to
state "later insertions win" at the claim level. -/
def findLast {α : Type} (p : α → Bool) : List α → Option α
  | [] => none
  | x :: xs =>
    match findLast p xs with
    | some y => some y
    | none => if p x then some x else none

/-- Claim-level lookup in an exposed mapping list: the first record whose
lower-cased village equals the key. -/
def mappingLookup (k : String) : List LocationRecord → Option LocationRecord
  | [] => none
  | r :: rest => if recKey r = k then some r else mappingLookup k rest

/-- Per-line parse rule as the spec states it: skip blank (whitespace-only)
lines and a case-insensitive `Village, Mandal` header; split every other
line at its last comma (none: drop the line); trim both parts and drop the
row when either trimmed part is empty. -/
def specParseLine (line : List Char) : Option LocationRecord :=
  let ln := trimChars line
  if ln = [] then none
  else if isHeaderLine ln then none
  else
    match splitAtLastComma ln with
    | none => none
    | some (a, b) =>
      if trimChars a ≠ [] ∧ trimChars b ≠ []
      then some ⟨⟨trimChars a⟩, ⟨trimChars b⟩⟩
      else none

/-- The local parse as the spec describes it: the per-line rule applied to
every line. -/
def specParseCSV (csv : String) : List LocationRecord :=
  (splitOnNl csv.data).filterMap specParseLine

/-- Dedup by lower-cased village where the record of the *first* occurrence
of each key wins — the rule the spec states for the local-only mapping. -/
def dedupFirstWins (l : List LocationRecord) : List LocationRecord :=
  l.foldl
    (fun acc r => if recKey r ∈ acc.map recKey then acc else acc ++ [r])
    []

/-- Dedup by lower-cased village where each key sits at its first
occurrence but carries the record of its *last* occurrence — the rule the
code actually implements. -/
def dedupLastWins (l : List LocationRecord) : List LocationRecord :=
  (jsSetDedup (l.map recKey)).filterMap (fun k => findLast (fun r => recKey r = k) l)

/-- First-occurrence dedup stated structurally: keep the head, drop its
later duplicates, recurse. -/
def dedupSpec : List String → List String
  | [] => []
  | x :: xs => x :: dedupSpec (xs.filter (fun y => y ≠ x))
termination_by l => l.length
decreasing_by
  simp only [List.length_cons]
  exact Nat.lt_succ_of_le (List.length_filter_le _ _)

/-- First-occurrence dedup relative to a list of already-seen elements;
used to relate the fold-based `jsSetDedup` to `dedupSpec`. -/
def dedupFrom (seen : List String) : List String → List String
  | [] => []
  | k :: ks => if k ∈ seen then dedupFrom seen ks else k :: dedupFrom (seen ++ [k]) ks

/-- The auto-filled mandal on village selection, as the spec words it: the
mandal of the record found by exact village match, empty when none. -/
def specAutoMandal (mapping : List LocationRecord) (v : String) : String :=
  match mapping.find? (fun r => r.village = v) with
  | some r0 => r0.mandal
  | none => ""

/-- The village candidate pool as the spec words it: the selected mandal's
villages when a mandal is selected, else all villages; distinct (first
occurrence), non-empty, sorted. -/
def specVillageCandidates (mapping : List LocationRecord) (mandalValue : String) :
    List String :=
  sortStrings (dedupSpec
    (((if jsTrim mandalValue ≠ ""
       then mapping.filter (fun r => r.mandal = jsTrim mandalValue)
       else mapping).map (fun r => r.village)).filter (fun s => s ≠ "")))

/-- The mandal list as the spec words it: the distinct non-empty mandals of
the mapping, sorted. -/
def specMandalList (mapping : List LocationRecord) : List String :=
  sortStrings (dedupSpec ((mapping.map (fun r => r.mandal)).filter (fun s => s ≠ "")))

/-! ### Association-list (JS `Map`) lemmas -/

theorem assocLookup_jsSet {K V : Type} [DecidableEq K] (m : List (K × V))
    (k0 k : K) (v : V) :
    assocLookup k (jsSet m k0 v) = if k0 = k then some v else assocLookup k m := by
  induction m with
  | nil => simp [jsSet, assocLookup]
  | cons e rest ih =>
    simp only [jsSet]
    by_cases h0 : e.1 = k0
    · rw [if_pos h0]
      simp only [assocLookup]
      split_ifs with hk he
      · rfl
      · exact absurd (h0.symm.trans he) hk
      · rfl
    · rw [if_neg h0]
      simp only [assocLookup, ih]
      split_ifs with he hk hk
      · exact absurd (he.trans hk.symm) h0
      · rfl
      · rfl
      · rfl

theorem mem_jsSet {K V : Type} [DecidableEq K] {m : List (K × V)}
    {e : K × V} {k0 : K} {v : V} (h : e ∈ jsSet m k0 v) : e ∈ m ∨ e = (k0, v) := by
  induction m with
  | nil => simp [jsSet] at h; simp [h]
  | cons e0 rest ih =>
    by_cases h0 : e0.1 = k0
    · simp [jsSet, h0] at h
      rcases h with h | h
      · right; exact h
      · left; simp [h]
    · simp [jsSet, h0] at h
      rcases h with h | h
      · left; simp [h]
      · rcases ih h with h | h
        · left; simp [h]
        · right; exact h

theorem keys_jsSet {K V : Type} [DecidableEq K] (m : List (K × V)) (k0 : K) (v : V) :
    (jsSet m k0 v).map (fun e => e.1) =
      if k0 ∈ m.map (fun e => e.1) then m.map (fun e => e.1)
      else m.map (fun e => e.1) ++ [k0] := by
  induction m with
  | nil => simp [jsSet]
  | cons e rest ih =>
    by_cases h0 : e.1 = k0
    · simp [jsSet, h0]
    · have hne : ¬ k0 = e.1 := fun h => h0 h.symm
      by_cases hm : k0 ∈ rest.map (fun e => e.1)
      · simp [jsSet, h0, ih, hm, hne]
      · simp [jsSet, h0, ih, hm, hne]

theorem nodup_keys_jsSet {K V : Type} [DecidableEq K] {m : List (K × V)}
    (h : (m.map (fun e => e.1)).Nodup) (k0 : K) (v : V) :
    ((jsSet m k0 v).map (fun e => e.1)).Nodup := by
  rw [keys_jsSet]
  split
  · exact h
  · next hk =>
    simp only [List.nodup_append, List.nodup_cons, List.not_mem_nil,
      not_false_iff, List.nodup_nil, and_true, true_and, List.Disjoint]
    refine ⟨h, ?_⟩
    intro a ha hmem
    simp only [List.mem_singleton] at hmem
    exact hk (hmem ▸ ha)

theorem findLast_append {α : Type} (p : α → Bool) (l1 l2 : List α) :
    findLast p (l1 ++ l2) =
      match findLast p l2 with
      | some y => some y
      | none => findLast p l1 := by
  induction l1 with
  | nil => cases h : findLast p l2 <;> simp [findLast, h]
  | cons x xs ih =>
    simp only [List.cons_append, findLast, List.append_eq]
    rw [ih]
    cases h2 : findLast p l2 <;> cases h1 : findLast p xs <;> simp [h1, h2]

theorem assocLookup_insertAll (l : List LocationRecord)
    (m : List (String × LocationRecord)) (k : String) :
    assocLookup k (insertAll m l) =
      match findLast (fun r => recKey r = k) l with
      | some r => some r
      | none => assocLookup k m := by
  induction l generalizing m with
  | nil => simp [insertAll, findLast]
  | cons r rest ih =>
    simp only [insertAll, List.foldl_cons] at *
    rw [ih (jsSet m (recKey r) r)]
    simp only [findLast, assocLookup_jsSet]
    cases h : findLast (fun r => recKey r = k) rest
    · by_cases hk : recKey r = k <;> simp [hk]
    · simp

theorem keys_insertAll (l : List LocationRecord)
    (m : List (String × LocationRecord)) :
    (insertAll m l).map (fun e => e.1) =
      m.map (fun e => e.1) ++ dedupFrom (m.map (fun e => e.1)) (l.map recKey) := by
  induction l generalizing m with
  | nil => simp [insertAll, dedupFrom]
  | cons r rest ih =>
    simp only [insertAll, List.foldl_cons, List.map_cons, dedupFrom] at *
    rw [ih (jsSet m (recKey r) r), keys_jsSet]
    by_cases hm : recKey r ∈ m.map (fun e => e.1)
    · simp [hm]
    · simp [hm]

theorem mem_insertAll {l : List LocationRecord}
    {m : List (String × LocationRecord)} {e : String × LocationRecord}
    (h : e ∈ insertAll m l) : e ∈ m ∨ e.2 ∈ l := by
  induction l generalizing m with
  | nil => exact Or.inl h
  | cons r rest ih =>
    simp only [insertAll, List.foldl_cons] at h
    rcases ih h with h1 | h1
    · rcases mem_jsSet h1 with h2 | h2
      · exact Or.inl h2
      · right; simp [h2]
    · right; simp [h1]

theorem entry_key_insertAll {l : List LocationRecord}
    {m : List (String × LocationRecord)}
    (hm : ∀ e ∈ m, e.1 = recKey e.2) :
    ∀ e ∈ insertAll m l, e.1 = recKey e.2 := by
  induction l generalizing m with
  | nil => exact hm
  | cons r rest ih =>
    intro e he
    simp only [insertAll, List.foldl_cons] at he
    refine ih (fun e2 he2 => ?_) e he
    rcases mem_jsSet he2 with h2 | h2
    · exact hm e2 h2
    · simp [h2]

theorem nodup_keys_insertAll (l : List LocationRecord)
    {m : List (String × LocationRecord)}
    (hm : (m.map (fun e => e.1)).Nodup) :
    ((insertAll m l).map (fun e => e.1)).Nodup := by
  induction l generalizing m with
  | nil => exact hm
  | cons r rest ih =>
    simp only [insertAll, List.foldl_cons]
    exact ih (nodup_keys_jsSet hm (recKey r) r)

theorem mappingLookup_values {m : List (String × LocationRecord)}
    (hm : ∀ e ∈ m, e.1 = recKey e.2) (k : String) :
    mappingLookup k (m.map (fun e => e.2)) = assocLookup k m := by
  induction m with
  | nil => rfl
  | cons e rest ih =>
    simp only [List.map_cons, mappingLookup, assocLookup]
    rw [← hm e (by simp)]
    split_ifs with h
    · rfl
    · exact ih (fun e2 he2 => hm e2 (by simp [he2]))

theorem values_eq_filterMap_keys {K V : Type} [DecidableEq K]
    {m : List (K × V)} (h : (m.map (fun e => e.1)).Nodup) :
    m.map (fun e => e.2) = (m.map (fun e => e.1)).filterMap (fun k => assocLookup k m) := by
  induction m with
  | nil => rfl
  | cons e rest ih =>
    simp only [List.map_cons, List.nodup_cons] at h ⊢
    simp only [List.filterMap_cons]
    have h1 : assocLookup e.1 (e :: rest) = some e.2 := by simp [assocLookup]
    rw [h1]
    have h2 : (rest.map (fun e => e.1)).filterMap (fun k => assocLookup k (e :: rest)) =
        (rest.map (fun e => e.1)).filterMap (fun k => assocLookup k rest) := by
      refine List.filterMap_congr (fun k hk => ?_)
      have hne : ¬ e.1 = k := fun hek => h.1 (hek ▸ hk)
      simp [assocLookup, hne]
    rw [h2, ← ih h.2]

theorem foldl_dedup_eq (l acc : List String) :
    l.foldl (fun acc x => if x ∈ acc then acc else acc ++ [x]) acc =
      acc ++ dedupFrom acc l := by
  induction l generalizing acc with
  | nil => simp [dedupFrom]
  | cons k ks ih =>
    simp only [List.foldl_cons, dedupFrom]
    by_cases hk : k ∈ acc
    · simp [hk, ih]
    · simp only [hk, if_neg, ite_false]
      rw [ih (acc ++ [k])]
      simp

theorem jsMapOfList_pairs (loc : List LocationRecord) :
    jsMapOfList (loc.map (fun r => (recKey r, r))) = insertAll [] loc := by
  simp [jsMapOfList, insertAll, List.foldl_map]

/-! ### Dedup lemmas -/

theorem dedupSpec_cons (x : String) (xs : List String) :
    dedupSpec (x :: xs) = x :: dedupSpec (xs.filter (fun y => y ≠ x)) := by
  rw [dedupSpec]

theorem dedupFrom_nodup (l seen : List String) :
    (dedupFrom seen l).Nodup ∧ ∀ k ∈ dedupFrom seen l, k ∉ seen := by
  induction l generalizing seen with
  | nil => simp [dedupFrom]
  | cons k ks ih =>
    by_cases hk : k ∈ seen
    · simpa [dedupFrom, hk] using ih seen
    · have h2 := ih (seen ++ [k])
      simp only [dedupFrom, hk, ite_false, List.nodup_cons, if_neg]
      refine ⟨⟨fun hmem => ?_, h2.1⟩, ?_⟩
      · exact (h2.2 k hmem) (by simp)
      · intro a ha
        simp only [List.mem_cons] at ha
        rcases ha with ha | ha
        · exact ha ▸ hk
        · intro hs
          exact (h2.2 a ha) (by simp [hs])

theorem jsSetDedup_eq_dedupFrom (l : List String) :
    jsSetDedup l = dedupFrom [] l := by
  simp [jsSetDedup, foldl_dedup_eq l []]

theorem dedupFrom_eq_dedupSpec (l : List String) :
    ∀ seen, dedupFrom seen l = dedupSpec (l.filter (fun k => k ∉ seen)) := by
  induction l with
  | nil => intro seen; simp [dedupFrom, dedupSpec]
  | cons k ks ih =>
    intro seen
    by_cases hk : k ∈ seen
    · simp only [dedupFrom, hk, ite_true, List.filter_cons, decide_not]
      have : (decide (k ∈ seen)) = true := by simpa using hk
      simp [this, ih seen]
    · have hfil : List.filter (fun b => b ∉ seen) (k :: ks) =
          k :: List.filter (fun b => b ∉ seen) ks := by simp [hk]
      rw [dedupFrom, if_neg hk, hfil, dedupSpec_cons, ih (seen ++ [k])]
      congr 1
      rw [List.filter_filter]
      congr 1
      refine List.filter_congr (fun a _ => ?_)
      by_cases h1 : a = k <;> by_cases h2 : a ∈ seen <;> simp [h1, h2]

theorem jsSetDedup_eq_dedupSpec (l : List String) : jsSetDedup l = dedupSpec l := by
  rw [jsSetDedup_eq_dedupFrom, dedupFrom_eq_dedupSpec l []]
  congr 1
  simp

/-- The local-only dedup implements last-occurrence-wins at
first-occurrence positions. -/
theorem localOnlyMapping_eq_dedupLastWins (loc : List LocationRecord) :
    localOnlyMapping loc = dedupLastWins loc := by
  rw [localOnlyMapping, jsMapOfList_pairs]
  have hnodup : ((insertAll [] loc).map (fun e => e.1)).Nodup :=
    nodup_keys_insertAll loc (by simp)
  rw [values_eq_filterMap_keys hnodup]
  have hkeys : (insertAll [] loc).map (fun e => e.1) = jsSetDedup (loc.map recKey) := by
    rw [keys_insertAll, jsSetDedup_eq_dedupFrom]
    simp
  rw [hkeys, dedupLastWins]
  refine List.filterMap_congr (fun k _ => ?_)
  rw [assocLookup_insertAll]
  cases h : findLast (fun r => recKey r = k) loc <;> simp [assocLookup]

/-! ### Trim lemmas -/

theorem dropWhile_idem (p : Char → Bool) (l : List Char) :
    (l.dropWhile p).dropWhile p = l.dropWhile p := by
  induction l with
  | nil => rfl
  | cons x xs ih => by_cases h : p x <;> simp [List.dropWhile_cons, h, ih]

theorem exists_append_dropWhile (p : Char → Bool) (l : List Char) :
    ∃ u, l = u ++ l.dropWhile p := by
  induction l with
  | nil => exact ⟨[], rfl⟩
  | cons x xs ih =>
    by_cases h : p x
    · rcases ih with ⟨u, hu⟩
      refine ⟨x :: u, ?_⟩
      rw [List.dropWhile_cons, if_pos h, List.cons_append, ← hu]
    · exact ⟨[], by rw [List.dropWhile_cons, if_neg h]; rfl⟩

theorem length_dropWhile_le (p : Char → Bool) (l : List Char) :
    (l.dropWhile p).length ≤ l.length := by
  induction l with
  | nil => simp
  | cons x xs ih =>
    by_cases h : p x <;> simp [List.dropWhile_cons, h]
    omega

theorem dropWhile_fix_head (p : Char → Bool) {b : Char} {rest : List Char}
    (h : List.dropWhile p (b :: rest) = b :: rest) : p b = false := by
  by_cases hb : p b
  · exfalso
    rw [List.dropWhile_cons, if_pos hb] at h
    have hle := length_dropWhile_le p rest
    rw [h] at hle
    simp at hle
  · simpa using hb

theorem dropWhile_fix_of_append (p : Char → Bool) {A B : List Char}
    (hA : A.dropWhile p = A) (hpre : ∃ t, A = B ++ t) :
    B.dropWhile p = B := by
  cases B with
  | nil => rfl
  | cons b bs =>
    rcases hpre with ⟨t, ht⟩
    have hb : p b = false := by
      rw [List.cons_append] at ht
      exact @dropWhile_fix_head p b (bs ++ t) (ht ▸ hA)
    rw [List.dropWhile_cons, hb]
    simp

theorem trimChars_idem (l : List Char) : trimChars (trimChars l) = trimChars l := by
  have hAfix : (l.dropWhile isWS).dropWhile isWS = l.dropWhile isWS :=
    dropWhile_idem isWS l
  have hpre : ∃ t, l.dropWhile isWS =
      ((l.dropWhile isWS).reverse.dropWhile isWS).reverse ++ t := by
    rcases exists_append_dropWhile isWS (l.dropWhile isWS).reverse with ⟨u, hu⟩
    refine ⟨u.reverse, ?_⟩
    calc l.dropWhile isWS = ((l.dropWhile isWS).reverse).reverse :=
          (List.reverse_reverse _).symm
      _ = (u ++ (l.dropWhile isWS).reverse.dropWhile isWS).reverse := by rw [← hu]
      _ = ((l.dropWhile isWS).reverse.dropWhile isWS).reverse ++ u.reverse :=
          List.reverse_append u _
  have hfront :
      (((l.dropWhile isWS).reverse.dropWhile isWS).reverse).dropWhile isWS =
        ((l.dropWhile isWS).reverse.dropWhile isWS).reverse :=
    dropWhile_fix_of_append isWS hAfix hpre
  have hback : ((l.dropWhile isWS).reverse.dropWhile isWS).dropWhile isWS =
      (l.dropWhile isWS).reverse.dropWhile isWS :=
    dropWhile_idem isWS (l.dropWhile isWS).reverse
  show trimChars (((l.dropWhile isWS).reverse.dropWhile isWS).reverse) = _
  rw [trimChars, hfront, List.reverse_reverse, hback]
  rfl

theorem jsTrim_idem (s : String) : jsTrim (jsTrim s) = jsTrim s := by
  refine String.ext ?_
  show trimChars (trimChars s.data) = trimChars s.data
  exact trimChars_idem s.data

theorem mk_ne_empty {l : List Char} (h : l ≠ []) : (⟨l⟩ : String) ≠ "" :=
  fun he => h (by simpa using congrArg String.data he)

/-! ### Parse lemmas -/

theorem parse_foldl_eq (lines : List (List Char)) (acc : List LocationRecord) :
    lines.foldl
      (fun out line =>
        let ln := trimChars line
        if ln.isEmpty then out
        else if isHeaderLine ln then out
        else
          match splitAtLastComma ln with
          | none => out
          | some (a, b) =>
            let village := trimChars a
            let mandal := trimChars b
            if !village.isEmpty && !mandal.isEmpty then out ++ [⟨⟨village⟩, ⟨mandal⟩⟩]
            else out)
      acc = acc ++ lines.filterMap specParseLine := by
  induction lines generalizing acc with
  | nil => simp
  | cons line rest ih =>
    rw [List.foldl_cons, ih, List.filterMap_cons]
    simp only [specParseLine]
    by_cases h1 : trimChars line = []
    · simp [h1]
    · have h1b : (trimChars line).isEmpty = false := by
        simp [List.isEmpty_iff, h1]
      simp only [h1, h1b, Bool.false_eq_true, if_false, ite_false]
      by_cases h2 : isHeaderLine (trimChars line)
      · simp [h2]
      · simp only [h2, if_false, ite_false]
        cases h3 : splitAtLastComma (trimChars line) with
        | none => simp
        | some ab =>
          obtain ⟨a, b⟩ := ab
          by_cases h4 : trimChars a = []
          · have h4b : (trimChars a).isEmpty = true := by simp [List.isEmpty_iff, h4]
            simp [h4, h4b]
          · have h4b : (trimChars a).isEmpty = false := by simp [List.isEmpty_iff, h4]
            by_cases h5 : trimChars b = []
            · have h5b : (trimChars b).isEmpty = true := by simp [List.isEmpty_iff, h5]
              simp [h4, h4b, h5, h5b]
            · have h5b : (trimChars b).isEmpty = false := by simp [List.isEmpty_iff, h5]
              simp [h4, h4b, h5, h5b]

theorem parseCSV_eq_spec (csv : String) : parseCSV csv = specParseCSV csv := by
  rw [parseCSV, specParseCSV]
  simpa using parse_foldl_eq (splitOnNl csv.data) []

theorem specParseLine_some {line : List Char} {r : LocationRecord}
    (h : specParseLine line = some r) :
    jsTrim r.village = r.village ∧ r.village ≠ "" ∧
      jsTrim r.mandal = r.mandal ∧ r.mandal ≠ "" := by
  simp only [specParseLine] at h
  by_cases h1 : trimChars line = []
  · rw [if_pos h1] at h
    exact absurd h (by simp)
  · rw [if_neg h1] at h
    by_cases h2 : isHeaderLine (trimChars line)
    · rw [if_pos h2] at h
      exact absurd h (by simp)
    · rw [if_neg h2] at h
      cases h3 : splitAtLastComma (trimChars line) with
      | none =>
        rw [h3] at h
        exact absurd h (by simp)
      | some ab =>
        rw [h3] at h
        obtain ⟨a, b⟩ := ab
        replace h :
            (if trimChars a ≠ [] ∧ trimChars b ≠ []
             then some (⟨⟨trimChars a⟩, ⟨trimChars b⟩⟩ : LocationRecord)
             else none) = some r := h
        by_cases h4 : trimChars a ≠ [] ∧ trimChars b ≠ []
        · rw [if_pos h4] at h
          have hr : r = ⟨⟨trimChars a⟩, ⟨trimChars b⟩⟩ := by
            cases h
            rfl
          subst hr
          refine ⟨String.ext ?_, mk_ne_empty h4.1, String.ext ?_, mk_ne_empty h4.2⟩
          · exact trimChars_idem a
          · exact trimChars_idem b
        · rw [if_neg h4] at h
          exact absurd h (by simp)

/-! ### Pipeline bridge lemmas -/

theorem jsLower_length (s : String) : (jsLower s).length = s.length := by
  show (s.data.map Char.toLower).length = s.data.length
  simp

theorem villageList_eq_spec (mapping : List LocationRecord) (mv : String) :
    villageList mapping mv = specVillageCandidates mapping mv := by
  rw [villageList, specVillageCandidates, jsSetDedup_eq_dedupSpec]
  by_cases h : jsTrim mv ≠ "" <;>
    simp [villagesSource, selectedMandalOf, h]

theorem mandalList_eq_spec (mapping : List LocationRecord) :
    mandalList mapping = specMandalList mapping := by
  rw [mandalList, specMandalList, jsSetDedup_eq_dedupSpec]

theorem merged_nil_eq_localOnly (loc : List LocationRecord) :
    mergedMapping loc [] = localOnlyMapping loc := by
  rw [mergedMapping, localOnlyMapping, jsMapOfList_pairs]
  rfl

theorem mem_localOnlyMapping {loc : List LocationRecord} {r : LocationRecord}
    (h : r ∈ localOnlyMapping loc) : r ∈ loc := by
  rw [localOnlyMapping, jsMapOfList_pairs] at h
  rcases List.mem_map.mp h with ⟨e, he, rfl⟩
  rcases mem_insertAll he with h1 | h1
  · simp at h1
  · exact h1

theorem mem_mergedMapping {loc rem : List LocationRecord} {r : LocationRecord}
    (h : r ∈ mergedMapping loc rem) : r ∈ loc ∨ r ∈ rem := by
  rw [mergedMapping] at h
  rcases List.mem_map.mp h with ⟨e, he, rfl⟩
  rcases mem_insertAll he with h1 | h1
  · rcases mem_insertAll h1 with h2 | h2
    · simp at h2
    · exact Or.inl h2
  · exact Or.inr h1

/-! ### Claim theorems -/

/-- Claim C1: the merged mapping is keyed by lower-cased village name with
local records inserted first and remote records second, so that lookup by a
key resolves to the last record inserted under it — in particular a remote
record whose key equals a local record's key replaces the local record; and
concretely, local `("Kadapa","Kadapa M")` merged with remote
`("Kadapa","Kadapa New M")` maps Kadapa to `"Kadapa New M"`. -/
theorem merged_mapping_remote_wins :
    (∀ (loc supa : List LocationRecord) (k : String),
        mappingLookup k (mergedMapping loc supa) =
          findLast (fun r => recKey r = k) (loc ++ supa))
    ∧ mergedMapping [⟨"Kadapa", "Kadapa M"⟩] [⟨"Kadapa", "Kadapa New M"⟩] =
        [⟨"Kadapa", "Kadapa New M"⟩] := by
  constructor
  · intro loc supa k
    rw [mergedMapping]
    have hinv : ∀ e ∈ insertAll (insertAll [] loc) supa, e.1 = recKey e.2 :=
      entry_key_insertAll (entry_key_insertAll (by simp))
    rw [mappingLookup_values hinv, assocLookup_insertAll, assocLookup_insertAll,
      findLast_append]
    cases findLast (fun r => recKey r = k) supa <;>
      cases findLast (fun r => recKey r = k) loc <;> simp [assocLookup]
  · decide

/-- Claim C2, counterexample: the local-only dedup does not let the first
occurrence of a key win — the JS `Map` constructor overwrites, so the last
record under a repeated lower-cased village key wins (at the first
occurrence's position). -/
theorem local_dedup_first_wins_cex :
    localOnlyMapping [⟨"Kadapa", "M1"⟩, ⟨"KADAPA", "M2"⟩] = [⟨"KADAPA", "M2"⟩]
    ∧ dedupFirstWins [⟨"Kadapa", "M1"⟩, ⟨"KADAPA", "M2"⟩] = [⟨"Kadapa", "M1"⟩]
    ∧ (⟨"KADAPA", "M2"⟩ : LocationRecord) ≠ ⟨"Kadapa", "M1"⟩ := by decide

/-- Claim C2, amended: with no remote source (and likewise when the remote
fetch throws), the exposed mapping equals the local rows deduplicated by
lower-cased village where each key sits at its first occurrence but carries
the record of its last occurrence; for the two distinct-key example rows
the mapping contains exactly those two records. -/
theorem local_mapping_dedup_spec :
    (∀ loc : List LocationRecord, localOnlyMapping loc = dedupLastWins loc)
    ∧ (∀ loc : List LocationRecord,
        buildRemoteMapping loc .thrown = dedupLastWins loc)
    ∧ localOnlyMapping [⟨"Anantapur", "Anantapur M"⟩, ⟨"Kadapa", "Kadapa M"⟩] =
        [⟨"Anantapur", "Anantapur M"⟩, ⟨"Kadapa", "Kadapa M"⟩] := by
  exact ⟨localOnlyMapping_eq_dedupLastWins,
    fun loc => localOnlyMapping_eq_dedupLastWins loc, by decide⟩

/-- Claim C3: the local parse is exactly the per-line rule — skip blank
lines and the case-insensitive `Village, Mandal` header, split at the last
comma, trim both parts, drop rows with an empty part — applied to every
line; concretely `"A, B Village,X Mandal"` parses with the comma kept
inside the village, and the header is skipped in any case. -/
theorem parseCSV_spec_conformance :
    (∀ csv : String, parseCSV csv = specParseCSV csv)
    ∧ parseCSV ("A, B Village,X Mandal") = [⟨"A, B Village", "X Mandal"⟩]
    ∧ parseCSV ("Village, Mandal") = []
    ∧ parseCSV ("VILLAGE , MANDAL") = [] := by
  exact ⟨parseCSV_eq_spec, by decide, by decide, by decide⟩

/-- Claim C4: a trimmed village filter of length ≥ 3 narrows the candidate
pool (the selected mandal's villages, else all villages) by
case-insensitive substring match; below the threshold the full pool is
shown when a mandal is selected and nothing otherwise. -/
theorem filteredVillages_spec :
    ∀ (mapping : List LocationRecord) (mandalValue villageFilter : String),
      filteredVillages mapping mandalValue villageFilter =
        if 3 ≤ (jsTrim villageFilter).length then
          (specVillageCandidates mapping mandalValue).filter
            (fun v => jsIncludes (jsLower v) (jsLower (jsTrim villageFilter)))
        else if jsTrim mandalValue ≠ "" then specVillageCandidates mapping mandalValue
        else [] := by
  intro mapping mv f
  simp only [filteredVillages, jsLower_length, villageList_eq_spec, selectedMandalOf]

/-- Claim C5: the displayed mandal list is the distinct sorted list of the
mapping's (non-empty) mandals, narrowed by case-insensitive substring match
once the trimmed filter has at least two characters and shown in full
otherwise. -/
theorem filteredMandals_spec :
    ∀ (mapping : List LocationRecord) (mandalFilter : String),
      filteredMandals mapping mandalFilter =
        if 2 ≤ (jsTrim mandalFilter).length then
          (specMandalList mapping).filter
            (fun m => jsIncludes (jsLower m) (jsLower (jsTrim mandalFilter)))
        else specMandalList mapping := by
  intro mapping f
  rw [filteredMandals, mandalList_eq_spec]

/-- Claim C6, counterexample: selecting village `V` fills village `"V"`,
but then changing the mandal dropdown resets the village to `""` — so a
mandal change does alter the already-selected village. -/
theorem mandal_change_clears_village_cex :
    (onVillageSelect [⟨"V", "M"⟩] ("V") initialFormState).village = "V"
    ∧ (onMandalSelect ("M2")
        (onVillageSelect [⟨"V", "M"⟩] ("V") initialFormState)).village = ""
    ∧ ("V" : String) ≠ "" := by decide

/-- Claim C6, amended: selecting a village sets the mandal to the exact-
match lookup result (empty when none) and the village to the chosen value;
a subsequent mandal selection does not re-derive the village from the
mapping — it resets the village to empty and clears the village filter. -/
theorem village_select_autofill_spec :
    ∀ (mapping : List LocationRecord) (v m : String) (s : FormState),
      v ≠ "__other__" → m ≠ "__other__" →
      (onVillageSelect mapping v s).village = v
      ∧ (onVillageSelect mapping v s).mandal = specAutoMandal mapping v
      ∧ (onMandalSelect m (onVillageSelect mapping v s)).village = ""
      ∧ (onMandalSelect m (onVillageSelect mapping v s)).villageFilter = ""
      ∧ (onMandalSelect m (onVillageSelect mapping v s)).mandal = m := by
  intro mapping v m s hv hm
  simp [onVillageSelect, onMandalSelect, specAutoMandal, hv, hm]

/-- Witness for the amended C6 theorem at a concrete mapping and state. -/
theorem village_select_autofill_spec_witness :
    (onVillageSelect [⟨"V", "M"⟩] ("V") initialFormState).village = "V"
    ∧ (onVillageSelect [⟨"V", "M"⟩] ("V") initialFormState).mandal =
        specAutoMandal [⟨"V", "M"⟩] ("V")
    ∧ (onMandalSelect ("M2")
        (onVillageSelect [⟨"V", "M"⟩] ("V") initialFormState)).village = ""
    ∧ (onMandalSelect ("M2")
        (onVillageSelect [⟨"V", "M"⟩] ("V") initialFormState)).villageFilter = ""
    ∧ (onMandalSelect ("M2")
        (onVillageSelect [⟨"V", "M"⟩] ("V") initialFormState)).mandal = "M2" :=
  village_select_autofill_spec [⟨"V", "M"⟩] ("V") ("M2") initialFormState
    (by decide) (by decide)

/-- Claim C7, counterexample: entering manual mode through the mandal
dropdown's Other option leaves a previously selected village in place —
after selecting village `V` and then mandal-Other, the village is still
`"V"`, not cleared. -/
theorem manual_mode_mandal_other_keeps_village_cex :
    (onMandalSelect ("__other__")
      (onVillageSelect [⟨"V", "M"⟩] ("V") initialFormState)).manualMode = true
    ∧ (onMandalSelect ("__other__")
        (onVillageSelect [⟨"V", "M"⟩] ("V") initialFormState)).village = "V"
    ∧ ("V" : String) ≠ "" := by decide

/-- Claim C7, amended: the village dropdown's Other option clears both the
village and the mandal; the mandal dropdown's Other option clears only the
mandal and keeps the village; canceling manual mode clears the two manual
text fields and leaves the village/mandal form values untouched (no
restoration of prior selections). -/
theorem manual_mode_transitions_spec :
    ∀ (mapping : List LocationRecord) (s : FormState),
      (onVillageSelect mapping ("__other__") s).manualMode = true
      ∧ (onVillageSelect mapping ("__other__") s).village = ""
      ∧ (onVillageSelect mapping ("__other__") s).mandal = ""
      ∧ (onMandalSelect ("__other__") s).manualMode = true
      ∧ (onMandalSelect ("__other__") s).mandal = ""
      ∧ (onMandalSelect ("__other__") s).village = s.village
      ∧ (onCancelManual s).manualMode = false
      ∧ (onCancelManual s).manualVillage = ""
      ∧ (onCancelManual s).manualMandal = ""
      ∧ (onCancelManual s).village = s.village
      ∧ (onCancelManual s).mandal = s.mandal := by
  intro mapping s
  simp [onVillageSelect, onMandalSelect, onCancelManual]

/-- Claim C8: every failing remote outcome — a thrown exception, an error
result, or non-array data — leaves the reconciler returning the
deduplicated local-only mapping; the computation is total and exposes no
error channel. -/
theorem remote_failure_degrades_to_local :
    ∀ (loc : List LocationRecord) (o : FetchOutcome),
      (o = .thrown ∨ (∃ d, o = .success true d) ∨ (∃ e, o = .success e none)) →
      buildRemoteMapping loc o = localOnlyMapping loc := by
  intro loc o h
  rcases h with h | ⟨d, h⟩ | ⟨e, h⟩ <;> subst h
  · rfl
  · cases d <;> exact merged_nil_eq_localOnly loc
  · cases e <;> exact merged_nil_eq_localOnly loc

/-- Witness for the C8 theorem at a concrete failing outcome. -/
theorem remote_failure_degrades_to_local_witness :
    buildRemoteMapping [⟨"Kadapa", "Kadapa M"⟩] (.success true none) =
      localOnlyMapping [⟨"Kadapa", "Kadapa M"⟩] :=
  remote_failure_degrades_to_local [⟨"Kadapa", "Kadapa M"⟩] (.success true none)
    (Or.inr (Or.inl ⟨none, rfl⟩))

/-- Claim C9, counterexample: a successfully fetched remote row with a null
mandal is normalized to the empty string and merged without any emptiness
filter, so the built mapping holds a record whose mandal trims to empty. -/
theorem merged_record_empty_mandal_cex :
    buildRemoteMapping [] (.success false (some [⟨some ("V"), none⟩])) =
      [⟨"V", ""⟩]
    ∧ jsTrim (LocationRecord.mandal ⟨"V", ""⟩) = "" := by decide

/-- Claim C9, amended: every record produced by the local parse (and hence
every record of the local-only mapping, whose records all come from the
parsed list) has village and mandal non-empty after trimming; a record of
the merged mapping is either a local record or a normalized remote row,
and normalized remote rows are trimmed but possibly empty. -/
theorem mapping_record_wellformedness :
    (∀ (csv : String) (r : LocationRecord), r ∈ parseCSV csv →
        jsTrim r.village ≠ "" ∧ jsTrim r.mandal ≠ "")
    ∧ (∀ (loc : List LocationRecord) (r : LocationRecord),
        r ∈ localOnlyMapping loc → r ∈ loc)
    ∧ (∀ (loc rem : List LocationRecord) (r : LocationRecord),
        r ∈ mergedMapping loc rem → r ∈ loc ∨ r ∈ rem)
    ∧ (∀ (rows : List RemoteRow) (r : LocationRecord),
        r ∈ rows.map normalizeRemote →
        r.village = jsTrim r.village ∧ r.mandal = jsTrim r.mandal) := by
  refine ⟨?_, fun loc r h => mem_localOnlyMapping h,
    fun loc rem r h => mem_mergedMapping h, ?_⟩
  · intro csv r h
    rw [parseCSV_eq_spec, specParseCSV] at h
    rcases List.mem_filterMap.mp h with ⟨line, _, hline⟩
    obtain ⟨hv1, hv2, hm1, hm2⟩ := specParseLine_some hline
    exact ⟨by rw [hv1]; exact hv2, by rw [hm1]; exact hm2⟩
  · intro rows r h
    rcases List.mem_map.mp h with ⟨row, _, rfl⟩
    exact ⟨(jsTrim_idem _).symm, (jsTrim_idem _).symm⟩

/-- Witness for the amended C9 theorem on a concrete parsed row. -/
theorem mapping_record_wellformedness_witness :
    jsTrim ("Kadapa") ≠ "" ∧ jsTrim ("Kadapa M") ≠ "" :=
  mapping_record_wellformedness.1 ("Kadapa,Kadapa M") ⟨"Kadapa", "Kadapa M"⟩
    (by decide)

/-- Claim C10: in the empty-mapping fallback mode the blur handler's guard
`val && mapping.length` fails, so for every typed value and state the
mandal form value is unchanged. -/
theorem fallback_blur_preserves_mandal :
    ∀ (val : String) (s : FormState),
      (onFallbackVillageBlur [] val s).mandal = s.mandal := by
  intro val s
  have hcond : ¬(val ≠ "" ∧ ([] : List LocationRecord).length ≠ 0) :=
    fun h => h.2 rfl
  rw [onFallbackVillageBlur, if_neg hcond]

end ChittoorLoc
